import Mathlib

/-!
Verification of the retrieval/ranking core of the pdfsummarizer repository.

This file shallowly embeds the code in `backend/services/vector_service.py`
and `backend/services/chat_service.py`: the hand-engineered feature
vectorizer, the similarity search over the stored collection, the keyword
fallback text search, the query classifier and the retrieval orchestration,
plus the chat-history bookkeeping.  Python strings are modelled as
`List Char` (the corpora and queries are ASCII), Python floats as `ℚ`.
-/

/-! ## String helpers (Python semantics on ASCII text) -/

/-- Python regex `\w` on ASCII input: letters, digits, underscore. -/
def isWordChar (c : Char) : Bool := c.isAlphanum || c == '_'

/-- The regex character class `[A-Z]`. -/
def isUpperAZ (c : Char) : Bool := 'A' ≤ c && c ≤ 'Z'

/-- The regex character class `[a-z]`. -/
def isLowerAZ (c : Char) : Bool := 'a' ≤ c && c ≤ 'z'

/-- `isPrefixList needle hay` holds when `needle` is a prefix of `hay`. -/
def isPrefixList : List Char → List Char → Bool
  | [], _ => true
  | _ :: _, [] => false
  | a :: as, b :: bs => a == b && isPrefixList as bs

/-- Python's `needle in hay` substring test. -/
def containsSub : List Char → List Char → Bool
  | [], needle => needle.isEmpty
  | c :: t, needle => isPrefixList needle (c :: t) || containsSub t needle

/-- Python `text.lower()` on ASCII text. -/
def lowerStr (s : List Char) : List Char := s.map Char.toLower

/-- Helper for `pyWords`: accumulates the current run of word characters
(reversed) while scanning. -/
def pyWordsAux : List Char → List Char → List (List Char)
  | acc, [] => if acc.isEmpty then [] else [acc.reverse]
  | acc, c :: cs =>
    if isWordChar c then pyWordsAux (c :: acc) cs
    else if acc.isEmpty then pyWordsAux [] cs
    else acc.reverse :: pyWordsAux [] cs

/-- Python `re.findall(r'\w+', t)`: the maximal runs of word characters. -/
def pyWords (t : List Char) : List (List Char) := pyWordsAux [] t

/-- Adjacent-word bigrams joined by `_`, as built by
`_generate_improved_embeddings` (`f"{words[i]}_{words[i+1]}"`). -/
def bigramsOf : List (List Char) → List (List Char)
  | [] => []
  | [_] => []
  | a :: b :: rest => (a ++ '_' :: b) :: bigramsOf (b :: rest)

/-- Python `re.search(r'\d{4}', t)`: four consecutive digits occur. -/
def hasFourDigits : List Char → Bool
  | a :: b :: c :: d :: rest =>
    (a.isDigit && b.isDigit && c.isDigit && d.isDigit)
      || hasFourDigits (b :: c :: d :: rest)
  | _ => false

/-! ## The feature vectorizer (`_generate_improved_embeddings`) -/

/-- The fixed keyword vocabulary `crm_keywords` of
`_generate_improved_embeddings`, in the source's insertion order. -/
def crm_keywords : List (List Char) :=
  ["react".data, "node".data, "mongodb".data, "aws".data, "oauth".data,
   "backend".data, "frontend".data, "api".data, "database".data,
   "developer".data, "delay".data, "vendor".data, "approval".data,
   "approved".data, "ramesh".data, "iyer".data, "meera".data, "nair".data,
   "cto".data, "adoption".data, "metrics".data, "pipeline".data,
   "mobile".data, "support".data, "tickets".data, "testing".data,
   "jest".data, "security".data, "rbac".data, "encryption".data,
   "module".data, "lead".data, "contact".data, "opportunity".data,
   "email".data, "campaign".data, "analytics".data, "dashboard".data,
   "functional".data, "april".data, "started".data, "final".data,
   "release".data, "uat".data, "anjali".data, "mukherjee".data, "qa".data,
   "quality".data, "assurance".data, "vishal".data, "menon".data,
   "devika".data, "sharma".data, "arjun".data, "mehta".data, "kavya".data,
   "rathi".data, "neeraj".data, "kapoor".data, "ayesha".data, "khan".data,
   "priya".data, "deshmukh".data, "role".data]

/-- The fixed bigram vocabulary `important_bigrams`. -/
def important_bigrams : List (List Char) :=
  ["backend_developer".data, "email_campaign".data, "final_approval".data,
   "post_release".data, "user_adoption".data, "support_tickets".data,
   "pipeline_visibility".data, "mobile_usage".data, "tech_stack".data,
   "project_delayed".data, "technology_stack".data]

/-- The visual-content keywords probed by the vectorizer. -/
def visual_content_words : List (List Char) :=
  ["figure".data, "diagram".data, "image".data, "chart".data,
   "graph".data, "illustration".data]

/-- The common characters `'aeioutrnslc'` used for character frequencies. -/
def common_chars : List Char := "aeioutrnslc".data

/-- The guarded word denominator `total_words = len(words) or 1`. -/
def total_words_den (words : List (List Char)) : ℚ :=
  if words.length = 0 then 1 else (words.length : ℚ)

/-- The guarded bigram denominator `max(len(bigrams), 1)`. -/
def bigram_den (bigrams : List (List Char)) : ℚ :=
  max (bigrams.length : ℚ) 1

/-- The guarded character denominator `total_chars = sum(...) or 1`
(the sum of the per-character counts is the number of alphabetic chars). -/
def total_chars_den (alphaChars : List Char) : ℚ :=
  if alphaChars.length = 0 then 1 else (alphaChars.length : ℚ)

/-- `_generate_improved_embeddings` for a single text: the deterministic
feature vector, padded or truncated to length 384. -/
def generate_improved_embedding (text : List Char) : List ℚ :=
  let text_lower := lowerStr text
  let words := pyWords text_lower
  let length_feature : ℚ := min ((text.length : ℚ) / 2000) 1
  let word_count_feature : ℚ := min ((words.length : ℚ) / 200) 1
  let has_visual_content : ℚ :=
    if visual_content_words.any (fun w => containsSub text_lower w) then 1 else 0
  let is_visual_chunk : ℚ :=
    if containsSub text_lower "visual".data
        && (containsSub text_lower "description:".data
            || containsSub text_lower "caption:".data) then 1 else 0
  let total_words := total_words_den words
  let keyword_features :=
    crm_keywords.map (fun kw => (words.count kw : ℚ) / total_words)
  let bigrams := bigramsOf words
  let bigram_features :=
    important_bigrams.map (fun bg => (bigrams.count bg : ℚ) / bigram_den bigrams)
  let alpha_chars := text_lower.filter Char.isAlpha
  let total_chars := total_chars_den alpha_chars
  let char_features :=
    common_chars.map (fun ch => (alpha_chars.count ch : ℚ) / total_chars)
  let has_numbers : ℚ := if text.any Char.isDigit then 1 else 0
  let has_dates : ℚ := if hasFourDigits text then 1 else 0
  let has_percentages : ℚ := if text.any (fun c => c == '%') then 1 else 0
  let e := [length_feature, word_count_feature, has_numbers, has_dates,
            has_percentages, has_visual_content, is_visual_chunk]
           ++ keyword_features ++ bigram_features ++ char_features
  if e.length < 384 then e ++ List.replicate (384 - e.length) 0 else e.take 384

/-! ## Data model: stored chunks and scored results -/

/-- The chunk metadata fields the retrieval core reads: the `source`
filename, the owning `doc_id` and the chunk ordinal. -/
structure ChunkMeta where
  source : List Char
  doc_id : List Char
  chunk_index : Nat
deriving DecidableEq

/-- One record of the ChromaDB collection: id, text, metadata and the
feature vector computed at `add_documents` time. -/
structure StoredChunk where
  id : List Char
  content : List Char
  metadata : ChunkMeta
  embedding : List ℚ
deriving DecidableEq

/-- A scored retrieval result (`{"content": ..., "metadata": ..., "score": ...}`). -/
structure DocResult where
  content : List Char
  metadata : ChunkMeta
  score : ℚ
deriving DecidableEq

/-! ## Regex scanning for `text_search_fallback` and `_is_name_query` -/

/-- Split a maximal run of `[a-z]` characters off the front. -/
def takeLowerRun : List Char → List Char × List Char
  | [] => ([], [])
  | c :: cs =>
    if isLowerAZ c then
      let (run, rest) := takeLowerRun cs
      (c :: run, rest)
    else ([], c :: cs)

/-- After a greedy `[a-z]+` group, the trailing `\b` holds iff the next
character is not a word character (or the text ends). -/
def boundaryAfter : List Char → Bool
  | [] => true
  | c :: _ => !(isWordChar c)

/-- Match `[A-Z][a-z]+ [A-Z][a-z]+\b` at the head of `s` (the leading `\b`
is checked by the caller); returns the matched text and the remaining
suffix.  Greedy `[a-z]+` followed by `\b` or a literal space admits no
backtracking, so the match is the maximal lowercase run. -/
def matchFullNameAt (s : List Char) : Option (List Char × List Char) :=
  match s with
  | [] => none
  | c :: cs =>
    if isUpperAZ c then
      let (run1, r1) := takeLowerRun cs
      if run1.isEmpty then none
      else
        match r1 with
        | ' ' :: d :: r2 =>
          if isUpperAZ d then
            let (run2, r3) := takeLowerRun r2
            if run2.isEmpty then none
            else if boundaryAfter r3 then
              some (c :: run1 ++ ' ' :: d :: run2, r3)
            else none
          else none
        | _ => none
    else none

/-- Match `[A-Z][a-z]{2,}\b` at the head of `s` (leading `\b` checked by
the caller). -/
def matchSingleNameAt (s : List Char) : Option (List Char × List Char) :=
  match s with
  | [] => none
  | c :: cs =>
    if isUpperAZ c then
      let (run, r) := takeLowerRun cs
      if 2 ≤ run.length && boundaryAfter r then some (c :: run, r) else none
    else none

/-- Python `re.findall` driver: scan left to right, try the pattern at
every position whose predecessor is not a word character, and continue
after each (non-overlapping) match.  The fuel is the remaining length,
which bounds the number of scanning steps. -/
def findAllAux (step : List Char → Option (List Char × List Char)) :
    Nat → Bool → List Char → List (List Char)
  | 0, _, _ => []
  | _ + 1, _, [] => []
  | n + 1, prevWord, c :: cs =>
    if prevWord then findAllAux step n (isWordChar c) cs
    else
      match step (c :: cs) with
      | some (m, rest) => m :: findAllAux step n true rest
      | none => findAllAux step n (isWordChar c) cs

/-- All non-overlapping matches of a pattern, Python `re.findall` order. -/
def findAllMatches (step : List Char → Option (List Char × List Char))
    (s : List Char) : List (List Char) :=
  findAllAux step s.length false s

/-- `re.findall(r'\b[A-Z][a-z]+ [A-Z][a-z]+\b', q)`. -/
def find_full_names (q : List Char) : List (List Char) :=
  findAllMatches matchFullNameAt q

/-- `re.findall(r'\b[A-Z][a-z]{2,}\b', q)`. -/
def find_single_names (q : List Char) : List (List Char) :=
  findAllMatches matchSingleNameAt q

/-! ## `text_search_fallback` (vector_service.py) -/

/-- The `name_keywords` list of `text_search_fallback`. -/
def name_keywords : List (List Char) :=
  ["ramesh".data, "iyer".data, "meera".data, "nair".data, "priya".data,
   "deshmukh".data, "anjali".data, "mukherjee".data, "vishal".data,
   "menon".data, "devika".data, "sharma".data, "arjun".data, "mehta".data,
   "kavya".data, "rathi".data, "neeraj".data, "kapoor".data, "ayesha".data,
   "khan".data, "cto".data, "qa lead".data, "project manager".data,
   "head of operations".data, "developer".data, "tester".data]

/-- Candidate search-term extraction of `text_search_fallback`: full-name
regex matches, single capitalized words, then every known keyword that
occurs in the lowercased query; if none were found, the whole lowercased
query is the single term. -/
def extract_search_terms (q : List Char) : List (List Char) :=
  let full_names := find_full_names q
  let single_names := find_single_names q
  let query_lower := lowerStr q
  let kws := name_keywords.filter (fun k => containsSub query_lower k)
  let terms := full_names ++ single_names ++ kws
  if terms.isEmpty then [query_lower] else terms

/-- The per-chunk scoring loop of `text_search_fallback`: starting from
`match_score = 0.0`, every term whose lowercased form occurs in the
lowercased content raises the score with `max` — to `0.95` when the term
is already lowercase (a fixed keyword or the whole-query fallback term),
else to `0.9`. -/
def chunk_match_score : List (List Char) → List Char → ℚ → ℚ
  | [], _, acc => acc
  | t :: rest, content_lower, acc =>
    if containsSub content_lower (lowerStr t) then
      if lowerStr t = t then
        chunk_match_score rest content_lower (max acc (mkRat 95 100))
      else
        chunk_match_score rest content_lower (max acc (mkRat 9 10))
    else chunk_match_score rest content_lower acc

/-- Stable insertion into a list sorted by score descending: the new
element goes after every strictly higher score and before equal ones that
occurred later in the original list (Python `list.sort` is stable). -/
def insertScoreDesc (x : DocResult) : List DocResult → List DocResult
  | [] => [x]
  | y :: ys => if x.score < y.score then y :: insertScoreDesc x ys else x :: y :: ys

/-- Stable sort by score descending (`matches.sort(key=..., reverse=True)`). -/
def sortScoreDesc : List DocResult → List DocResult
  | [] => []
  | x :: xs => insertScoreDesc x (sortScoreDesc xs)

/-- `text_search_fallback`: scan every stored chunk against the candidate
terms, keep positive scores, sort by score descending (insertion order as
tie break) and return at most 10 matches. -/
def text_search_fallback (store : List StoredChunk) (q : List Char) :
    List DocResult :=
  let terms := extract_search_terms q
  let found := store.filterMap (fun c =>
    let s := chunk_match_score terms (lowerStr c.content) 0
    if 0 < s then some ⟨c.content, c.metadata, s⟩ else none)
  (sortScoreDesc found).take 10

/-! ## `similarity_search` (vector_service.py) -/

/-- Squared L2 distance between two vectors, ChromaDB's default metric. -/
def sqDist (v w : List ℚ) : ℚ :=
  ((v.zip w).map (fun p => (p.1 - p.2) * (p.1 - p.2))).sum

/-- Stable insertion into a list sorted by distance ascending. -/
def insertDistAsc (x : StoredChunk × ℚ) :
    List (StoredChunk × ℚ) → List (StoredChunk × ℚ)
  | [] => [x]
  | y :: ys => if y.2 < x.2 then y :: insertDistAsc x ys else x :: y :: ys

/-- Stable sort by distance ascending. -/
def sortDistAsc : List (StoredChunk × ℚ) → List (StoredChunk × ℚ)
  | [] => []
  | x :: xs => insertDistAsc x (sortDistAsc xs)

/-- The ChromaDB `collection.query` call: rank the stored chunks by
distance between their stored embedding and the query embedding, and
return the closest `n_results` with their distances. -/
def chroma_query (store : List StoredChunk) (q_emb : List ℚ) (n_results : Nat) :
    List (StoredChunk × ℚ) :=
  (sortDistAsc (store.map (fun c => (c, sqDist c.embedding q_emb)))).take n_results

/-- `similarity_search`: embed the query, query the collection, convert
each distance `d` to a similarity `1/(1+d)` and keep results whose
similarity reaches `score_threshold`, appending the same value to the
score list. -/
def similarity_search (store : List StoredChunk) (q : List Char)
    (top_k : Nat) (score_threshold : ℚ) : List DocResult × List ℚ :=
  let q_emb := generate_improved_embedding q
  let results := chroma_query store q_emb top_k
  let docs := results.filterMap (fun r =>
    let s := 1 / (1 + r.2)
    if score_threshold ≤ s then some (⟨r.1.content, r.1.metadata, s⟩ : DocResult)
    else none)
  (docs, docs.map (fun d => d.score))

/-- The unfiltered scored candidates of a `similarity_search` call: every
result ChromaDB returned, with its similarity score. -/
def search_candidates (store : List StoredChunk) (q : List Char)
    (top_k : Nat) : List DocResult :=
  (chroma_query store (generate_improved_embedding q) top_k).map
    (fun r => ⟨r.1.content, r.1.metadata, 1 / (1 + r.2)⟩)

/-! ## Collection maintenance (`clear_collection`, `delete_document`) -/

/-- `collection.delete(ids=...)`: drop every chunk whose id is listed. -/
def delete_ids (store : List StoredChunk) (ids : List (List Char)) :
    List StoredChunk :=
  store.filter (fun c => decide (c.id ∉ ids))

/-- `collection.count()`. -/
def collection_count (store : List StoredChunk) : Nat := store.length

/-- `clear_collection`: fetch all ids and delete them; succeeds (with a
different message) when the collection was already empty. -/
def clear_collection (store : List StoredChunk) :
    List StoredChunk × Bool × List Char :=
  let ids := store.map (fun c => c.id)
  if ids.isEmpty then (store, true, "Collection was already empty".data)
  else (delete_ids store ids, true, "Collection cleared successfully".data)

/-- `delete_document`: fetch the ids of the chunks whose metadata `doc_id`
matches, delete them; reports success with zero removals when none match. -/
def delete_document (store : List StoredChunk) (doc_id : List Char) :
    List StoredChunk × Bool × List Char :=
  let ids := (store.filter (fun c => decide (c.metadata.doc_id = doc_id))).map
    (fun c => c.id)
  if ids.isEmpty then (store, true, "No chunks found for this document".data)
  else (delete_ids store ids, true,
        "Deleted ".data ++ (Nat.repr ids.length).data ++ " document chunks".data)


/-! ## Query classification (chat_service.py) -/

/-- The `summary_keywords` list of `_determine_query_type`. -/
def summary_keywords : List (List Char) :=
  ["summarize".data, "summary".data, "overview".data, "brief".data,
   "outline".data, "synopsis".data, "main points".data, "key points".data,
   "highlights".data, "quick overview".data, "give me a summary".data,
   "what are the main".data, "overall picture".data]

/-- The `detail_keywords` list of `_determine_query_type`. -/
def detail_keywords : List (List Char) :=
  ["details".data, "detailed".data, "full info".data,
   "complete section".data, "comprehensive".data, "in depth".data,
   "thorough".data, "complete details".data, "full description".data,
   "tell me everything".data, "all information".data,
   "complete picture".data]

/-- `_determine_query_type`: summary intent wins over detail intent;
anything else is `"default"`. -/
def determine_query_type (q : List Char) : List Char :=
  let query_lower := lowerStr q
  if summary_keywords.any (fun k => containsSub query_lower k) then
    "summary".data
  else if detail_keywords.any (fun k => containsSub query_lower k) then
    "detail".data
  else "default".data

/-- The `name_indicators` list of `_is_name_query`. -/
def name_indicators : List (List Char) :=
  ["who is".data, "who are".data, "what is".data, "role of".data,
   "position of".data, "lead".data, "manager".data, "developer".data,
   "cto".data, "qa".data, "tester".data, "head of".data,
   "responsible for".data, "in charge of".data]

/-- The `known_names` list of `_is_name_query`. -/
def known_names : List (List Char) :=
  ["ramesh".data, "iyer".data, "meera".data, "nair".data, "priya".data,
   "deshmukh".data, "anjali".data, "mukherjee".data, "vishal".data,
   "menon".data, "devika".data, "sharma".data, "arjun".data, "mehta".data,
   "kavya".data, "rathi".data, "neeraj".data, "kapoor".data, "ayesha".data,
   "khan".data]

/-- `_is_name_query`: a proper-name pattern, a name/role indicator phrase,
or a known name in the lowercased query. -/
def is_name_query (q : List Char) : Bool :=
  let query_lower := lowerStr q
  let has_proper_names := !(find_full_names q).isEmpty
  let has_name_indicators :=
    name_indicators.any (fun k => containsSub query_lower k)
  let has_known_names := known_names.any (fun k => containsSub query_lower k)
  has_proper_names || has_name_indicators || has_known_names

/-! ## Retrieval orchestration (`process_query`, lines 28-58) -/

/-- The per-intent `top_k` chosen by `process_query`. -/
def top_k_for (query_type : List Char) : Nat :=
  if query_type = "summary".data then 8
  else if query_type = "detail".data then 20
  else 15

/-- The retrieval portion of `process_query`: classify the query, run the
similarity search with threshold `0.01`, and for name queries merge in the
keyword-fallback matches — fallback matches first, then at most 10 vector
results, with scores `[0.9]*len(fallback) + vector_scores[:10]`. -/
def process_retrieval (store : List StoredChunk) (q : List Char) :
    List DocResult × List ℚ :=
  let query_type := determine_query_type q
  let top_k := top_k_for query_type
  let vec := similarity_search store q top_k (mkRat 1 100)
  if is_name_query q then
    let text_search_docs := text_search_fallback store q
    if text_search_docs.isEmpty then vec
    else (text_search_docs ++ vec.1.take 10,
          List.replicate text_search_docs.length (mkRat 9 10) ++ vec.2.take 10)
  else vec

/-! ## Context assembly (`_build_context`) -/

/-- Index the elements of a list starting from `i` (Python `enumerate`). -/
def enumFromNat (i : Nat) : List α → List (Nat × α)
  | [] => []
  | a :: as => (i, a) :: enumFromNat (i + 1) as

/-- Join a list of strings with a separator (Python `sep.join`). -/
def join_sep (sep : List Char) : List (List Char) → List Char
  | [] => []
  | [x] => x
  | x :: y :: rest => x ++ sep ++ join_sep sep (y :: rest)

/-- Round to the nearest integer, ties to even (Python float formatting). -/
def roundHalfEven (x : ℚ) : ℤ :=
  let f := ⌊x⌋
  let r := x - f
  if r < 1/2 then f
  else if 1/2 < r then f + 1
  else if f % 2 = 0 then f else f + 1

/-- Python `f"{score:.2f}"`, idealized over exact rationals. -/
def format_2f (x : ℚ) : List Char :=
  let n := roundHalfEven (x * 100)
  let m := n.natAbs
  (if n < 0 then ['-'] else [])
    ++ (Nat.repr (m / 100)).data ++ ['.']
    ++ (if m % 100 < 10 then ['0'] else []) ++ (Nat.repr (m % 100)).data

/-- The `[Source {i+1}: {source}]\n` header of a summary context entry. -/
def source_header (i : Nat) (source : List Char) : List Char :=
  "[Source ".data ++ (Nat.repr (i + 1)).data ++ ": ".data ++ source
    ++ "]".data ++ ['\n']

/-- The `[Source {i+1}: {source} (relevance: {score:.2f})]\n` header of a
detail/default context entry. -/
def relevance_header (i : Nat) (source : List Char) (score : ℚ) : List Char :=
  "[Source ".data ++ (Nat.repr (i + 1)).data ++ ": ".data ++ source
    ++ " (relevance: ".data ++ format_2f score ++ ")]".data ++ ['\n']

/-- The chunk-derived body of a summary entry: content over 800 characters
is cut to its first 800 characters plus an ellipsis. -/
def summary_entry_body (content : List Char) : List Char :=
  if 800 < content.length then content.take 800 ++ "...".data else content

/-- `_build_context`, as the list of per-chunk context entries: 8 chunks
with truncated content for summaries, 8 full-content chunks for detail,
5 full-content chunks otherwise. -/
def build_context_parts (relevant_docs : List DocResult)
    (query_type : List Char) : List (List Char) :=
  if relevant_docs.isEmpty then []
  else if query_type = "summary".data then
    (enumFromNat 0 (relevant_docs.take 8)).map
      (fun p => source_header p.1 p.2.metadata.source
        ++ summary_entry_body p.2.content)
  else if query_type = "detail".data then
    (enumFromNat 0 (relevant_docs.take 8)).map
      (fun p => relevance_header p.1 p.2.metadata.source p.2.score
        ++ p.2.content)
  else
    (enumFromNat 0 (relevant_docs.take 5)).map
      (fun p => relevance_header p.1 p.2.metadata.source p.2.score
        ++ p.2.content)

/-- `_build_context`: the entries joined by blank lines. -/
def build_context (relevant_docs : List DocResult) (query_type : List Char) :
    List Char :=
  join_sep "\n\n".data (build_context_parts relevant_docs query_type)

/-! ## Confidence (`_calculate_confidence`) -/

/-- The accumulation loop of `_calculate_confidence` over `scores[:3]`:
returns the weighted score sum and the weight sum, with weight `1/(i+1)`
at 0-indexed rank `i`. -/
def confidence_loop : List ℚ → Nat → ℚ × ℚ
  | [], _ => (0, 0)
  | s :: rest, i =>
    let acc := confidence_loop rest (i + 1)
    (s * (1 / ((i : ℚ) + 1)) + acc.1, 1 / ((i : ℚ) + 1) + acc.2)

/-- `_calculate_confidence`: `0.0` without context or scores, else the
position-weighted average of the top 3 scores, capped at `1.0`. -/
def calculate_confidence (scores : List ℚ) (has_context : Bool) : ℚ :=
  if has_context = false || scores.isEmpty then 0
  else
    let acc := confidence_loop (scores.take 3) 0
    let confidence := if 0 < acc.2 then acc.1 / acc.2 else 0
    min confidence 1

/-- The weighted average the spec describes: top 3 scores, weight
`1/(rank+1)` at 0-indexed rank. -/
def top3_weighted_average (scores : List ℚ) : ℚ :=
  let top := scores.take 3
  let pairs := enumFromNat 0 top
  ((pairs.map (fun p => p.2 * (1 / ((p.1 : ℚ) + 1)))).sum) /
    ((pairs.map (fun p => 1 / ((p.1 : ℚ) + 1))).sum)

/-- The retrieval outcome `process_query` reports to the caller: results,
scores, the `has_context` flag, and the confidence. -/
def process_query_outcome (store : List StoredChunk) (q : List Char) :
    List DocResult × List ℚ × Bool × ℚ :=
  let r := process_retrieval store q
  let has_context := decide (0 < r.1.length)
  (r.1, r.2, has_context, calculate_confidence r.2 has_context)

/-! ## Chat history and conversation context (chat_service.py) -/

/-- One stored chat message (`ChatMessage`); the timestamp is an opaque
tick. -/
structure ChatMessage where
  role : List Char
  content : List Char
  timestamp : Nat
  sources : List (List Char)
deriving DecidableEq

/-- The session store `chat_sessions`, an insertion-ordered mapping from
session id to message list. -/
abbrev Sessions : Type := List (List Char × List ChatMessage)

/-- Dictionary lookup with `[]` as the missing-key default. -/
def get_history (sessions : Sessions) (session_id : List Char) :
    List ChatMessage :=
  match sessions with
  | [] => []
  | p :: rest =>
    if p.1 = session_id then p.2 else get_history rest session_id

/-- Dictionary assignment: replace the entry when present, append it
otherwise. -/
def set_session (sessions : Sessions) (session_id : List Char)
    (hist : List ChatMessage) : Sessions :=
  if sessions.any (fun p => decide (p.1 = session_id)) then
    sessions.map (fun p => if p.1 = session_id then (session_id, hist) else p)
  else sessions ++ [(session_id, hist)]

/-- Python `l[-n:]`. -/
def take_last (n : Nat) (l : List α) : List α := l.drop (l.length - n)

/-- `_update_chat_history`: append the user and assistant messages and
keep only the last 20 messages when the total exceeds 20. -/
def update_chat_history (sessions : Sessions) (session_id query response :
    List Char) (sources : List (List Char)) (t1 t2 : Nat) : Sessions :=
  let hist := get_history sessions session_id
  let extended := hist ++ [⟨"user".data, query, t1, []⟩,
                           ⟨"assistant".data, response, t2, sources⟩]
  let trimmed := if 20 < extended.length then take_last 20 extended
                 else extended
  set_session sessions session_id trimmed

/-- `clear_chat_history`: drop the session's entry when present. -/
def clear_chat_history (sessions : Sessions) (session_id : List Char) :
    Sessions :=
  sessions.filter (fun p => decide (p.1 ≠ session_id))

/-- `clear_all_sessions`. -/
def clear_all_sessions (_sessions : Sessions) : Sessions := []

/-- The `reference_indicators` list of `_query_references_previous_context`. -/
def reference_indicators : List (List Char) :=
  ["who did you mention".data, "what did you say".data, "tell me more".data,
   "more about".data, "what about".data, "how about".data, "and what".data,
   "also".data, "additionally".data, "that person".data, "they".data,
   "them".data, "he".data, "she".data, "it".data, "this".data,
   "previous".data, "before".data, "earlier".data, "above".data,
   "that".data, "those".data]

/-- `_query_references_previous_context`. -/
def query_references_previous_context (q : List Char) : Bool :=
  let query_lower := lowerStr q
  reference_indicators.any (fun k => containsSub query_lower k)

/-- Python `str.title()` on ASCII text: a letter is uppercased when it
starts a run of letters and lowercased otherwise. -/
def pyTitleAux : Bool → List Char → List Char
  | _, [] => []
  | prevAlpha, c :: cs =>
    if c.isAlpha then
      (if prevAlpha then c.toLower else c.toUpper) :: pyTitleAux true cs
    else c :: pyTitleAux false cs

/-- Python `str.title()`. -/
def pyTitle (s : List Char) : List Char := pyTitleAux false s

/-- One line of the prior-turn context: `f"{role.title()}: {content[:200]}"`. -/
def format_history_message (m : ChatMessage) : List Char :=
  pyTitle m.role ++ ": ".data ++ m.content.take 200

/-- `_get_conversation_context`: empty unless the session has history and
the query references the previous conversation; otherwise the last 6
messages, each content truncated to 200 characters, joined by newlines. -/
def get_conversation_context (sessions : Sessions) (session_id : List Char)
    (current_query : List Char) : List Char :=
  let hist := get_history sessions session_id
  if hist.isEmpty then []
  else
    let recent_messages := take_last 6 hist
    if !(query_references_previous_context current_query) then []
    else
      let context_parts := recent_messages.map format_history_message
      if context_parts.isEmpty then [] else join_sep ['\n'] context_parts

/-! ## Helper lemmas -/

theorem length_filter_mono {α : Type} (p q : α → Bool) (l : List α)
    (h : ∀ a, p a = true → q a = true) :
    (l.filter p).length ≤ (l.filter q).length := by
  induction l with
  | nil => simp
  | cons a as ih =>
    by_cases hp : p a = true
    · simp [List.filter_cons, hp, h a hp, Nat.succ_le_succ ih]
    · have hp' : p a = false := by simpa using hp
      by_cases hq : q a = true
      · simp only [List.filter_cons, hp', hq]
        simp only [Bool.false_eq_true, if_false, if_true, List.length_cons]
        exact Nat.le_succ_of_le ih
      · have hq' : q a = false := by simpa using hq
        simp [List.filter_cons, hp', hq', ih]

theorem take_last_length_le {α : Type} (n : Nat) (l : List α) :
    (take_last n l).length ≤ n := by
  simp only [take_last, List.length_drop]
  omega

theorem enumFromNat_length {α : Type} (i : Nat) (l : List α) :
    (enumFromNat i l).length = l.length := by
  induction l generalizing i with
  | nil => rfl
  | cons a as ih => simp [enumFromNat, ih]

/-! ## C8 -/

set_option maxRecDepth 8000 in
/-- C8: on empty input text every feature of the vectorizer is zero (the
whole 384-vector is zero, covering all count-based and length/word-count
features), and every division's denominator is guarded: the word, bigram
and alphabetic-character denominators are at least 1 for every input, so
the vectorizer is total with no division by zero. -/
theorem vectorizer_empty_text_and_guarded_denominators :
    generate_improved_embedding [] = List.replicate 384 0 ∧
    (∀ ws : List (List Char), 1 ≤ total_words_den ws) ∧
    (∀ bs : List (List Char), 1 ≤ bigram_den bs) ∧
    (∀ al : List Char, 1 ≤ total_chars_den al) := by
  refine ⟨?_, ?_, ?_, ?_⟩
  · have hw : pyWords ([] : List Char) = [] := by decide
    have hv : ([] : List Char) ∉ visual_content_words := by decide
    have hk : crm_keywords.length = 64 := by decide
    have hb : important_bigrams.length = 11 := by decide
    have hc : common_chars.length = 11 := by decide
    simp only [generate_improved_embedding, lowerStr, List.map_nil,
      List.filter_nil, List.length_nil, Nat.cast_zero, zero_div,
      bigramsOf, total_words_den, bigram_den, total_chars_den,
      List.any_nil, hasFourDigits, containsSub, List.isEmpty_nil,
      hw, hv, hk, hb, hc, List.count_nil]
    norm_num [min_def]
    simp only [hk, hb, hc, if_neg hv]
    decide
  · intro ws
    unfold total_words_den
    split
    · exact le_refl 1
    · exact_mod_cast Nat.one_le_iff_ne_zero.mpr (by assumption)
  · intro bs
    exact le_max_right _ _
  · intro al
    unfold total_chars_den
    split
    · exact le_refl 1
    · exact_mod_cast Nat.one_le_iff_ne_zero.mpr (by assumption)

/-! ## C9 -/

theorem clear_collection_fst_nil (store : List StoredChunk) :
    (clear_collection store).1 = [] := by
  unfold clear_collection
  cases store with
  | nil => simp
  | cons c rest =>
    simp only [List.map_cons, List.isEmpty_cons, if_false, Bool.false_eq_true]
    simp only [delete_ids]
    rw [List.filter_eq_nil_iff]
    intro x hx
    simp only [decide_eq_true_eq, Decidable.not_not]
    exact List.mem_map_of_mem (fun c => c.id) hx

/-- C9: `clear_collection` empties the collection (the reported count is
zero) and a second `clear_collection` is a successful no-op; deleting a
`doc_id` that owns no chunk succeeds, removes nothing and leaves the
store unchanged. -/
theorem clear_and_delete_idempotent (store : List StoredChunk)
    (doc_id : List Char) (habsent : ∀ c ∈ store, c.metadata.doc_id ≠ doc_id) :
    collection_count (clear_collection store).1 = 0 ∧
    clear_collection (clear_collection store).1
      = ((clear_collection store).1, true, "Collection was already empty".data) ∧
    delete_document store doc_id
      = (store, true, "No chunks found for this document".data) := by
  refine ⟨?_, ?_, ?_⟩
  · rw [clear_collection_fst_nil]
    rfl
  · rw [clear_collection_fst_nil]
    rfl
  · unfold delete_document
    have hfil : store.filter (fun c => decide (c.metadata.doc_id = doc_id)) = [] := by
      rw [List.filter_eq_nil_iff]
      intro c hc
      simpa using habsent c hc
    rw [hfil]
    rfl

/-- C9 witness: a store owned by document `"a"` and a delete of the absent
document `"b"`. -/
theorem clear_and_delete_idempotent_witness :
    (∀ c ∈ [(⟨"a_chunk_0".data, "Ramesh Iyer is the CTO.".data,
        ⟨"kt.pdf".data, "a".data, 0⟩, []⟩ : StoredChunk)],
      c.metadata.doc_id ≠ "b".data) ∧
    delete_document
        [⟨"a_chunk_0".data, "Ramesh Iyer is the CTO.".data,
          ⟨"kt.pdf".data, "a".data, 0⟩, []⟩] ("b".data)
      = ([⟨"a_chunk_0".data, "Ramesh Iyer is the CTO.".data,
          ⟨"kt.pdf".data, "a".data, 0⟩, []⟩], true,
         "No chunks found for this document".data) :=
  ⟨by decide,
   (clear_and_delete_idempotent
     [⟨"a_chunk_0".data, "Ramesh Iyer is the CTO.".data,
       ⟨"kt.pdf".data, "a".data, 0⟩, []⟩] ("b".data) (by decide)).2.2⟩

/-! ## C10 -/

/-- The chat-history invariant: every stored session holds at most 20
messages. -/
def sessions_bounded (sessions : Sessions) : Prop :=
  ∀ p ∈ sessions, p.2.length ≤ 20

theorem get_history_map_set (sessions : Sessions) (sid : List Char)
    (h : List ChatMessage)
    (hany : sessions.any (fun p => decide (p.1 = sid)) = true) :
    get_history (sessions.map (fun p => if p.1 = sid then (sid, h) else p)) sid
      = h := by
  induction sessions with
  | nil => simp at hany
  | cons p rest ih =>
    by_cases hp : p.1 = sid
    · simp [get_history, hp]
    · have hrest : rest.any (fun p => decide (p.1 = sid)) = true := by
        simpa [hp] using hany
      simp [get_history, hp, ih hrest]

theorem get_history_append_new (sessions : Sessions) (sid : List Char)
    (h : List ChatMessage)
    (hnone : sessions.any (fun p => decide (p.1 = sid)) = false) :
    get_history (sessions ++ [(sid, h)]) sid = h := by
  induction sessions with
  | nil => simp [get_history]
  | cons p rest ih =>
    have hp : ¬(p.1 = sid) := by
      intro hc
      simp [hc] at hnone
    have hrest : rest.any (fun p => decide (p.1 = sid)) = false := by
      simpa [hp] using hnone
    simpa [get_history, hp] using ih hrest

theorem get_set_session (sessions : Sessions) (sid : List Char)
    (h : List ChatMessage) :
    get_history (set_session sessions sid h) sid = h := by
  unfold set_session
  cases hany : sessions.any (fun p => decide (p.1 = sid)) with
  | true => simpa using get_history_map_set sessions sid h hany
  | false => simpa using get_history_append_new sessions sid h hany

theorem sessions_bounded_set (sessions : Sessions) (sid : List Char)
    (h : List ChatMessage) (hb : sessions_bounded sessions)
    (hh : h.length ≤ 20) :
    sessions_bounded (set_session sessions sid h) := by
  unfold set_session
  split
  · intro p hp
    rcases List.mem_map.mp hp with ⟨q, hq, rfl⟩
    by_cases hq1 : q.1 = sid
    · simpa [hq1] using hh
    · simpa [hq1] using hb q hq
  · intro p hp
    rcases List.mem_append.mp hp with hmem | hmem
    · exact hb p hmem
    · rcases List.mem_singleton.mp hmem with rfl
      exact hh

/-- C10: every mutation of `chat_sessions` preserves the 20-message cap:
`_update_chat_history` always leaves the touched session with at most 20
messages, keeping exactly the 20 most recent ones when the cap would be
exceeded, and the clearing operations trivially preserve the invariant. -/
theorem chat_history_cap_invariant (sessions : Sessions)
    (sid query response : List Char) (sources : List (List Char))
    (t1 t2 : Nat) (hb : sessions_bounded sessions) :
    sessions_bounded (update_chat_history sessions sid query response sources t1 t2) ∧
    (20 < (get_history sessions sid).length + 2 →
      get_history (update_chat_history sessions sid query response sources t1 t2) sid
        = take_last 20 (get_history sessions sid
            ++ [⟨"user".data, query, t1, []⟩,
                ⟨"assistant".data, response, t2, sources⟩])) ∧
    sessions_bounded (clear_chat_history sessions sid) ∧
    sessions_bounded (clear_all_sessions sessions) := by
  refine ⟨?_, ?_, ?_, ?_⟩
  · unfold update_chat_history
    apply sessions_bounded_set _ _ _ hb
    split
    · exact take_last_length_le 20 _
    · rename_i hle
      simp only [List.length_append, List.length_cons, List.length_nil] at hle ⊢
      omega
  · intro hgt
    unfold update_chat_history
    rw [get_set_session]
    rw [if_pos (by simp only [List.length_append, List.length_cons,
      List.length_nil]; omega)]
  · intro p hp
    exact hb p (List.mem_filter.mp hp).1
  · intro p hp
    simp [clear_all_sessions] at hp

/-- C10 witness: the invariant holds after updating an empty session
store. -/
theorem chat_history_cap_invariant_witness :
    sessions_bounded ([] : Sessions) ∧
    sessions_bounded (update_chat_history [] ("s".data) ("q".data)
      ("r".data) [] 0 1) := by
  have hb : sessions_bounded ([] : Sessions) := by
    intro p hp
    simp at hp
  exact ⟨hb, (chat_history_cap_invariant [] ("s".data) ("q".data) ("r".data)
    [] 0 1 hb).1⟩

/-! ## C7 -/

/-- C7: the prior-turn conversation context is non-empty only when the
query contains a backward-reference indicator and the session's history is
non-empty, and it is then exactly the last 6 (or fewer) messages, each
rendered with its content truncated to 200 characters. -/
theorem conversation_context_gated_and_bounded (sessions : Sessions)
    (sid q : List Char)
    (hne : get_conversation_context sessions sid q ≠ []) :
    query_references_previous_context q = true ∧
    get_history sessions sid ≠ [] ∧
    get_conversation_context sessions sid q
      = join_sep ['\n']
          ((take_last 6 (get_history sessions sid)).map format_history_message) ∧
    (take_last 6 (get_history sessions sid)).length ≤ 6 ∧
    ∀ m : ChatMessage,
      format_history_message m = pyTitle m.role ++ ": ".data ++ m.content.take 200
      ∧ (m.content.take 200).length ≤ 200 := by
  unfold get_conversation_context at hne ⊢
  cases hh : (get_history sessions sid).isEmpty with
  | true => simp [hh] at hne
  | false =>
    simp only [hh, Bool.false_eq_true, if_false] at hne ⊢
    cases hr : query_references_previous_context q with
    | false => simp [hr] at hne
    | true =>
      simp only [hr, Bool.not_true, Bool.false_eq_true, if_false] at hne ⊢
      have hnil : get_history sessions sid ≠ [] := by
        intro hcon
        rw [hcon] at hh
        simp at hh
      refine ⟨trivial, hnil, ?_, take_last_length_le 6 _, ?_⟩
      · cases hp : ((take_last 6 (get_history sessions sid)).map
            format_history_message).isEmpty with
        | true => simp [hp] at hne
        | false => simp [hp]
      · intro m
        exact ⟨rfl, by rw [List.length_take]; exact min_le_left 200 _⟩

/-- C7 witness: a one-message session and the query `"tell me more"`
produce a non-empty prior-turn context. -/
theorem conversation_context_gated_and_bounded_witness :
    get_conversation_context
        [("s1".data, [⟨"user".data, "Hello there".data, 0, []⟩])]
        ("s1".data) ("tell me more".data) ≠ [] ∧
    query_references_previous_context ("tell me more".data) = true :=
  ⟨by decide,
   (conversation_context_gated_and_bounded
     [("s1".data, [⟨"user".data, "Hello there".data, 0, []⟩])]
     ("s1".data) ("tell me more".data) (by decide)).1⟩

/-! ## C3 -/

/-- C3: for a query classified as summary intent, the assembled context
uses at most 8 chunks, exactly the first 8 results each rendered as a
source header plus the summary body, and the chunk-derived part of every
entry body is the first 800 characters of the chunk at most. -/
theorem summary_context_budget (q : List Char) (docs : List DocResult)
    (hsum : determine_query_type q = "summary".data) :
    (build_context_parts docs (determine_query_type q)).length ≤ 8 ∧
    build_context_parts docs (determine_query_type q)
      = (if docs.isEmpty then []
         else (enumFromNat 0 (docs.take 8)).map
           (fun p => source_header p.1 p.2.metadata.source
             ++ summary_entry_body p.2.content)) ∧
    ∀ content : List Char, ∃ suffix,
      summary_entry_body content = content.take 800 ++ suffix
      ∧ (content.take 800).length ≤ 800
      ∧ (suffix = [] ∨ suffix = "...".data) := by
  rw [hsum]
  refine ⟨?_, ?_, ?_⟩
  · unfold build_context_parts
    cases hd : docs.isEmpty with
    | true => simp
    | false =>
      simp [hd, enumFromNat_length]
  · unfold build_context_parts
    cases hd : docs.isEmpty with
    | true => simp
    | false => simp [hd]
  · intro content
    by_cases hlen : 800 < content.length
    · refine ⟨"...".data, ?_, ?_, Or.inr rfl⟩
      · unfold summary_entry_body
        rw [if_pos hlen]
      · rw [List.length_take]
        exact min_le_left 800 _
    · refine ⟨[], ?_, ?_, Or.inl rfl⟩
      · unfold summary_entry_body
        rw [if_neg hlen, List.append_nil,
          List.take_of_length_le (by omega)]
      · rw [List.length_take]
        exact min_le_left 800 _

/-- C3 witness: the query `"Give me a summary of the project"` is
classified as summary intent. -/
theorem summary_context_budget_witness :
    determine_query_type ("Give me a summary of the project".data)
      = "summary".data ∧
    (build_context_parts []
      (determine_query_type ("Give me a summary of the project".data))).length ≤ 8 :=
  ⟨by decide,
   (summary_context_budget ("Give me a summary of the project".data) []
     (by decide)).1⟩

/-! ## C6 -/

/-- C6: on an empty collection every similarity search returns the pair of
empty lists, and the retrieval outcome of any query reports no documents,
`has_context = false` and confidence `0`; the empty result flows through
the normal result path (the outcome is an ordinary value, not an error). -/
theorem empty_index_normal_outcome (q : List Char) (top_k : Nat) (t : ℚ) :
    similarity_search [] q top_k t = ([], []) ∧
    process_query_outcome [] q = ([], [], false, 0) := by
  have hsim : ∀ (k : Nat) (t' : ℚ), similarity_search [] q k t' = ([], []) := by
    intro k t'
    unfold similarity_search chroma_query sortDistAsc
    simp
  have hfall : text_search_fallback [] q = [] := by
    unfold text_search_fallback sortScoreDesc
    simp
  have hretr : process_retrieval [] q = ([], []) := by
    simp only [process_retrieval]
    rw [hsim]
    cases is_name_query q with
    | true => simp [hfall]
    | false => simp
  refine ⟨hsim top_k t, ?_⟩
  unfold process_query_outcome
  rw [hretr]
  simp [calculate_confidence]

/-! ## C4 -/

theorem filterMap_threshold_eq_filter (t : ℚ) (l : List (StoredChunk × ℚ)) :
    l.filterMap (fun r =>
        if t ≤ 1 / (1 + r.2) then
          some (⟨r.1.content, r.1.metadata, 1 / (1 + r.2)⟩ : DocResult)
        else none)
      = (l.map (fun r =>
          (⟨r.1.content, r.1.metadata, 1 / (1 + r.2)⟩ : DocResult))).filter
          (fun d => decide (t ≤ d.score)) := by
  induction l with
  | nil => rfl
  | cons a as ih =>
    by_cases h : t ≤ (1 + a.2)⁻¹
    · simp [List.filterMap_cons, List.filter_cons, one_div, h]
      simpa [one_div] using ih
    · simp [List.filterMap_cons, List.filter_cons, one_div, h]
      simpa [one_div] using ih

/-- C4: for a fixed query, `top_k` and collection, `similarity_search`
keeps exactly the candidates whose similarity score reaches the threshold,
so raising the threshold never increases the number of results. -/
theorem similarity_search_threshold_monotone (store : List StoredChunk)
    (q : List Char) (top_k : Nat) (t1 t2 : ℚ) (hle : t1 ≤ t2) :
    (similarity_search store q top_k t1).1
      = (search_candidates store q top_k).filter (fun d => decide (t1 ≤ d.score)) ∧
    (similarity_search store q top_k t2).1.length
      ≤ (similarity_search store q top_k t1).1.length := by
  have heq : ∀ t : ℚ, (similarity_search store q top_k t).1
      = (search_candidates store q top_k).filter (fun d => decide (t ≤ d.score)) := by
    intro t
    simp only [similarity_search, search_candidates]
    exact filterMap_threshold_eq_filter t _
  refine ⟨heq t1, ?_⟩
  rw [heq t1, heq t2]
  apply length_filter_mono
  intro d hd
  simp only [decide_eq_true_eq] at hd ⊢
  exact le_trans hle hd

/-- C4 witness: thresholds `0 ≤ 1` on an empty store. -/
theorem similarity_search_threshold_monotone_witness :
    ((0 : ℚ) ≤ 1) ∧
    (similarity_search [] ("x".data) 5 1).1.length
      ≤ (similarity_search [] ("x".data) 5 0).1.length :=
  ⟨by decide,
   (similarity_search_threshold_monotone [] ("x".data) 5 0 1 (by decide)).2⟩

/-! ## C5 -/

theorem confidence_loop_nonneg (l : List ℚ) (i : Nat)
    (h : ∀ x ∈ l, 0 ≤ x) :
    0 ≤ (confidence_loop l i).1 ∧ 0 ≤ (confidence_loop l i).2 := by
  induction l generalizing i with
  | nil => simp [confidence_loop]
  | cons s rest ih =>
    have hs : 0 ≤ s := h s (List.mem_cons_self s rest)
    have hrest := ih (i + 1) (fun x hx => h x (List.mem_cons_of_mem s hx))
    have hw : 0 ≤ 1 / ((i : ℚ) + 1) := by positivity
    constructor
    · exact add_nonneg (mul_nonneg hs hw) hrest.1
    · exact add_nonneg hw hrest.2

/-- C5: the confidence is `0` when there is no context or no score, equals
the `1/(rank+1)`-weighted average of the top 3 scores capped at `1`
otherwise, and for nonnegative scores it always lies in `[0, 1]`. -/
theorem confidence_weighted_average_capped (scores : List ℚ) (hc : Bool) :
    calculate_confidence [] hc = 0 ∧
    calculate_confidence scores false = 0 ∧
    (hc = true → scores ≠ [] →
      calculate_confidence scores hc = min (top3_weighted_average scores) 1) ∧
    ((∀ x ∈ scores, 0 ≤ x) →
      0 ≤ calculate_confidence scores hc ∧ calculate_confidence scores hc ≤ 1) := by
  refine ⟨by simp [calculate_confidence], by simp [calculate_confidence], ?_, ?_⟩
  · intro h1 h2
    subst h1
    match scores with
    | [] => exact absurd rfl h2
    | [a] =>
      simp [calculate_confidence, confidence_loop, top3_weighted_average,
        enumFromNat]
    | [a, b] =>
      simp [calculate_confidence, confidence_loop, top3_weighted_average,
        enumFromNat]
      rw [if_pos (by norm_num)]
    | a :: b :: c :: rest =>
      simp [calculate_confidence, confidence_loop, top3_weighted_average,
        enumFromNat]
      rw [if_pos (by norm_num)]
  · intro hpos
    simp only [calculate_confidence]
    split
    · exact ⟨le_refl 0, by norm_num⟩
    · have hnn := confidence_loop_nonneg (scores.take 3) 0
        (fun x hx => hpos x (List.take_subset 3 scores hx))
      constructor
      · refine le_min ?_ (by norm_num)
        split
        · rename_i hpos2
          exact div_nonneg hnn.1 (le_of_lt hpos2)
        · exact le_refl 0
      · exact min_le_right _ _

/-- C5 witness: the score list `[0.5, 0.25]` with context. -/
theorem confidence_weighted_average_capped_witness :
    ([mkRat 1 2, mkRat 1 4] ≠ ([] : List ℚ)) ∧
    calculate_confidence [mkRat 1 2, mkRat 1 4] true
      = min (top3_weighted_average [mkRat 1 2, mkRat 1 4]) 1 ∧
    0 ≤ calculate_confidence [mkRat 1 2, mkRat 1 4] true := by
  have h := confidence_weighted_average_capped [mkRat 1 2, mkRat 1 4] true
  exact ⟨by decide, h.2.2.1 rfl (by decide), (h.2.2.2 (by decide)).1⟩

/-! ## C1 -/

/-- C1: for a name query whose keyword fallback finds matches, the merged
result list is exactly the fallback matches followed by at most the first
10 vector results, and the merged scores are `0.9` once per fallback match
followed by the first 10 vector scores. -/
theorem name_query_merge_priority (store : List StoredChunk) (q : List Char)
    (hname : is_name_query q = true)
    (hfall : text_search_fallback store q ≠ []) :
    process_retrieval store q
      = (text_search_fallback store q
          ++ (similarity_search store q (top_k_for (determine_query_type q))
              (mkRat 1 100)).1.take 10,
         List.replicate (text_search_fallback store q).length (mkRat 9 10)
          ++ (similarity_search store q (top_k_for (determine_query_type q))
              (mkRat 1 100)).2.take 10) ∧
    ((similarity_search store q (top_k_for (determine_query_type q))
        (mkRat 1 100)).1.take 10).length ≤ 10 := by
  constructor
  · simp only [process_retrieval, hname, if_true]
    rw [if_neg (by simpa [List.isEmpty_iff] using hfall)]
  · rw [List.length_take]
    exact min_le_left 10 _

/-- C1 witness: the query `"Who is Ramesh Iyer?"` over a store containing
the matching CTO chunk. -/
theorem name_query_merge_priority_witness :
    is_name_query ("Who is Ramesh Iyer?".data) = true ∧
    text_search_fallback
        [⟨"d1_chunk_0".data, "Ramesh Iyer is the CTO.".data,
          ⟨"kt.pdf".data, "d1".data, 0⟩, []⟩]
        ("Who is Ramesh Iyer?".data) ≠ [] ∧
    ((similarity_search
        [⟨"d1_chunk_0".data, "Ramesh Iyer is the CTO.".data,
          ⟨"kt.pdf".data, "d1".data, 0⟩, []⟩]
        ("Who is Ramesh Iyer?".data)
        (top_k_for (determine_query_type ("Who is Ramesh Iyer?".data)))
        (mkRat 1 100)).1.take 10).length ≤ 10 :=
  ⟨by decide, by decide,
   (name_query_merge_priority
     [⟨"d1_chunk_0".data, "Ramesh Iyer is the CTO.".data,
       ⟨"kt.pdf".data, "d1".data, 0⟩, []⟩]
     ("Who is Ramesh Iyer?".data) (by decide) (by decide)).2⟩

/-! ## C2 -/

/-- Modelled from the spec claim for refutation purposes: the score the
claim assigns to a chunk, determined by the FIRST candidate term (in
extraction order) whose lowercased form occurs in the chunk — `0.95` for
an all-lowercase fixed-keyword term, `0.9` for a proper-name-pattern
term; `none` when no term matches. -/
def first_match_chunk_score : List (List Char) → List Char → Option ℚ
  | [], _ => none
  | t :: rest, content_lower =>
    if containsSub content_lower (lowerStr t) then
      some (if lowerStr t = t then mkRat 95 100 else mkRat 9 10)
    else first_match_chunk_score rest content_lower

/-- The closed form of the code's per-chunk score: the maximum over all
matching terms — `0.95` as soon as any matching term is all-lowercase,
else `0.9` when any term matches at all, else `0`. -/
def term_scan (terms : List (List Char)) (content_lower : List Char) : ℚ :=
  if terms.any (fun t => containsSub content_lower (lowerStr t)
      && decide (lowerStr t = t)) then mkRat 95 100
  else if terms.any (fun t => containsSub content_lower (lowerStr t)) then
    mkRat 9 10
  else 0

theorem term_scan_nonneg (terms : List (List Char)) (content : List Char) :
    0 ≤ term_scan terms content := by
  unfold term_scan
  split
  · decide
  · split
    · decide
    · decide

theorem term_scan_le (terms : List (List Char)) (content : List Char) :
    term_scan terms content ≤ mkRat 95 100 := by
  unfold term_scan
  split
  · decide
  · split
    · decide
    · decide

theorem term_scan_cases (terms : List (List Char)) (content : List Char) :
    term_scan terms content = mkRat 95 100
      ∨ term_scan terms content = mkRat 9 10
      ∨ term_scan terms content = 0 := by
  unfold term_scan
  split
  · exact Or.inl rfl
  · split
    · exact Or.inr (Or.inl rfl)
    · exact Or.inr (Or.inr rfl)

theorem chunk_match_score_eq_max (terms : List (List Char))
    (content : List Char) :
    ∀ acc : ℚ, 0 ≤ acc →
      chunk_match_score terms content acc = max acc (term_scan terms content) := by
  induction terms with
  | nil =>
    intro acc hacc
    simp [chunk_match_score, term_scan, max_eq_left hacc]
  | cons t rest ih =>
    intro acc hacc
    by_cases h1 : containsSub content (lowerStr t) = true
    · by_cases h2 : lowerStr t = t
      · have hub := term_scan_le rest content
        have hcons : term_scan (t :: rest) content = mkRat 95 100 := by
          unfold term_scan
          rw [List.any_cons, h1, decide_eq_true h2]
          simp
        simp only [chunk_match_score]
        rw [if_pos h1, if_pos h2,
          ih (max acc (mkRat 95 100)) (le_max_of_le_right (by decide)),
          hcons, max_assoc, max_eq_left hub]
      · have h2f : decide (lowerStr t = t) = false := decide_eq_false h2
        simp only [chunk_match_score]
        rw [if_pos h1, if_neg h2,
          ih (max acc (mkRat 9 10)) (le_max_of_le_right (by decide))]
        cases hkw : rest.any (fun u => containsSub content (lowerStr u)
            && decide (lowerStr u = u)) with
        | true =>
          have hcons : term_scan (t :: rest) content = mkRat 95 100 := by
            unfold term_scan
            rw [List.any_cons, h1, h2f, hkw]
            simp
          have hrest : term_scan rest content = mkRat 95 100 := by
            unfold term_scan
            rw [hkw]
            simp
          rw [hcons, hrest, max_assoc,
            max_eq_right (by decide : (mkRat 9 10 : ℚ) ≤ mkRat 95 100)]
        | false =>
          have hcons : term_scan (t :: rest) content = mkRat 9 10 := by
            unfold term_scan
            rw [List.any_cons, List.any_cons, h1, h2f, hkw]
            simp
          have hrest : term_scan rest content ≤ mkRat 9 10 := by
            unfold term_scan
            rw [hkw]
            simp only [Bool.false_eq_true, if_false]
            split
            · decide
            · decide
          rw [hcons, max_assoc, max_eq_left hrest]
    · have h1f : containsSub content (lowerStr t) = false := by
        simpa using h1
      have hcons : term_scan (t :: rest) content = term_scan rest content := by
        unfold term_scan
        rw [List.any_cons, List.any_cons, h1f]
        simp [term_scan]
      simp only [chunk_match_score]
      rw [if_neg (by simp [h1f]), ih acc hacc, hcons]

theorem mem_insertScoreDesc (x y : DocResult) (l : List DocResult)
    (h : y ∈ insertScoreDesc x l) : y = x ∨ y ∈ l := by
  induction l with
  | nil =>
    unfold insertScoreDesc at h
    exact Or.inl (List.mem_singleton.mp h)
  | cons a as ih =>
    unfold insertScoreDesc at h
    split at h
    · rcases List.mem_cons.mp h with h | h
      · exact Or.inr (h ▸ List.mem_cons_self a as)
      · rcases ih h with h | h
        · exact Or.inl h
        · exact Or.inr (List.mem_cons_of_mem a h)
    · rcases List.mem_cons.mp h with h | h
      · exact Or.inl h
      · exact Or.inr h

theorem mem_sortScoreDesc (y : DocResult) (l : List DocResult)
    (h : y ∈ sortScoreDesc l) : y ∈ l := by
  induction l with
  | nil =>
    unfold sortScoreDesc at h
    exact h
  | cons a as ih =>
    rcases mem_insertScoreDesc a y (sortScoreDesc as) h with h | h
    · exact h ▸ List.mem_cons_self a as
    · exact List.mem_cons_of_mem a (ih h)

/-- C2 counterexample: for the query `"Who is Ramesh Iyer?"` against the
chunk `"Ramesh Iyer is the CTO."`, the first matching candidate term is
the proper-name-pattern term `"Ramesh Iyer"`, so the claimed
first-match rule yields `0.9` — but the code returns `0.95`, because a
later all-lowercase keyword term (`"ramesh"`) also matches and the code
takes the maximum over all matching terms. -/
theorem first_match_scoring_counterexample :
    first_match_chunk_score
        (extract_search_terms ("Who is Ramesh Iyer?".data))
        (lowerStr ("Ramesh Iyer is the CTO.".data)) = some (mkRat 9 10) ∧
    (extract_search_terms ("Who is Ramesh Iyer?".data)).head?
      = some ("Ramesh Iyer".data) ∧
    (text_search_fallback
        [⟨"d1_chunk_0".data, "Ramesh Iyer is the CTO.".data,
          ⟨"kt.pdf".data, "d1".data, 0⟩, []⟩]
        ("Who is Ramesh Iyer?".data)).map (fun m => m.score)
      = [mkRat 95 100] ∧
    (mkRat 9 10 : ℚ) ≠ mkRat 95 100 :=
  ⟨by decide, by decide, by decide, by decide⟩

/-- C2 (amended): a chunk's score is the maximum over all matching terms —
`0.95` when any matching term is all-lowercase (a fixed-keyword term or
the whole-query fallback term), else `0.9` when any term matches; scores
are never summed, and every returned match carries one of these two
scores (chunks matching no term score `0` and are excluded). -/
theorem text_search_fallback_max_scoring (store : List StoredChunk)
    (q : List Char) :
    (∀ (terms : List (List Char)) (content_lower : List Char),
      chunk_match_score terms content_lower 0 = term_scan terms content_lower) ∧
    ∀ m ∈ text_search_fallback store q,
      m.score = mkRat 95 100 ∨ m.score = mkRat 9 10 := by
  have hbase : ∀ (terms : List (List Char)) (content_lower : List Char),
      chunk_match_score terms content_lower 0 = term_scan terms content_lower := by
    intro terms content_lower
    rw [chunk_match_score_eq_max terms content_lower 0 le_rfl]
    exact max_eq_right (term_scan_nonneg terms content_lower)
  refine ⟨hbase, ?_⟩
  intro m hm
  unfold text_search_fallback at hm
  have hm' := mem_sortScoreDesc m _ (List.take_subset 10 _ hm)
  rcases List.mem_filterMap.mp hm' with ⟨c, _, hsome⟩
  by_cases hpos :
      0 < chunk_match_score (extract_search_terms q) (lowerStr c.content) 0
  · rw [if_pos hpos] at hsome
    have hms : m.score
        = chunk_match_score (extract_search_terms q) (lowerStr c.content) 0 := by
      rw [← Option.some_inj.mp hsome]
    rw [hms, hbase]
    rw [hbase] at hpos
    rcases term_scan_cases (extract_search_terms q) (lowerStr c.content)
      with h | h | h
    · exact Or.inl h
    · exact Or.inr h
    · rw [h] at hpos
      exact absurd hpos (lt_irrefl 0)
  · rw [if_neg hpos] at hsome
    exact absurd hsome (by simp)

/-- C2 witness: the CTO chunk is returned for `"Who is Ramesh Iyer?"` and
its score is one of the two legal values. -/
theorem text_search_fallback_max_scoring_witness :
    ((⟨"Ramesh Iyer is the CTO.".data, ⟨"kt.pdf".data, "d1".data, 0⟩,
        mkRat 95 100⟩ : DocResult)
      ∈ text_search_fallback
        [⟨"d1_chunk_0".data, "Ramesh Iyer is the CTO.".data,
          ⟨"kt.pdf".data, "d1".data, 0⟩, []⟩]
        ("Who is Ramesh Iyer?".data)) ∧
    ((⟨"Ramesh Iyer is the CTO.".data, ⟨"kt.pdf".data, "d1".data, 0⟩,
        mkRat 95 100⟩ : DocResult).score = mkRat 95 100
      ∨ (⟨"Ramesh Iyer is the CTO.".data, ⟨"kt.pdf".data, "d1".data, 0⟩,
        mkRat 95 100⟩ : DocResult).score = mkRat 9 10) :=
  ⟨by decide,
   (text_search_fallback_max_scoring
     [⟨"d1_chunk_0".data, "Ramesh Iyer is the CTO.".data,
       ⟨"kt.pdf".data, "d1".data, 0⟩, []⟩]
     ("Who is Ramesh Iyer?".data)).2 _ (by decide)⟩
